import Mathlib

/-!
Shallow embedding of src/main.cxx: a producer/consumer word counter.
The producer (read_input_words) reads whitespace tokens from stdin and
hands each one to a consumer thread (worker_thread) through a single
mutex-plus-condition-variable slot (the static Word s_word).  The consumer
folds non-sentinel words into a sorted map (std::map s_wordsMap).  After
ingestion, lookup_words runs interactive queries against the table and
counts hits in s_totalFound.
-/

namespace MainCxx

/-- charListLt is character-wise lexicographic comparison of two character
lists, the order std::string operator< applies to the byte sequences of two
strings. -/
def charListLt : List Char → List Char → Bool
  | _, [] => false
  | [], _ :: _ => true
  | a :: as, b :: bs =>
    if a.toNat < b.toNat then true
    else if a.toNat = b.toNat then charListLt as bs
    else false

/-- stringLt is the key order of std::map<std::string, wordCount>:
lexicographic comparison of the underlying character sequences. -/
def stringLt (s t : String) : Bool := charListLt s.data t.data

/-- WordMap models std::map<std::string, wordCount>: a strictly sorted
association list from word to count, in ascending lexicographic key order
(the order of std::map iteration). -/
abbrev WordMap := List (String × Nat)

/-- mapIncr models the consumer table update `s_wordsMap[w.data].count += 1`:
operator[] inserts the key with a default wordCount (count = 0) when absent,
keeping keys sorted, and then the count is bumped by one. -/
def mapIncr : WordMap → String → WordMap
  | [], w => [(w, 1)]
  | (k, c) :: rest, w =>
    if stringLt w k then (w, 1) :: (k, c) :: rest
    else if w = k then (k, c + 1) :: rest
    else (k, c) :: mapIncr rest w

/-- mapFind models `s_wordsMap.find(w.data)` in lookup_words: some count
when the word is a key of the table, none otherwise. -/
def mapFind : WordMap → String → Option Nat
  | [], _ => none
  | (k, c) :: rest, w => if w = k then some c else mapFind rest w

/-- workerIsSentinel models the consumer shutdown test at line 56 of
main.cxx: `strcmp(w.data.c_str(), "end") == 0`, an exact byte-for-byte
string comparison. -/
def workerIsSentinel (w : String) : Bool := w == "end"

/-- producerIsSentinel models the producer shutdown test at line 85 of
main.cxx: `strcmp(lineBuf, "end") == 0`, the same exact comparison. -/
def producerIsSentinel (w : String) : Bool := w == "end"

/-- workerStepTable is the effect of one iteration of worker_thread on the
table, given the token w it swapped out of the slot: an empty token is
ignored, the sentinel leaves the table untouched (the loop exits), and any
other word is counted. -/
def workerStepTable (m : WordMap) (w : String) : WordMap :=
  if w = "" then m
  else if workerIsSentinel w then m
  else mapIncr m w

/-- runWorker is the sequential effect of worker_thread on the table over
the list of tokens it takes from the slot, in order: it folds each token
with workerStepTable and stops at the sentinel. -/
def runWorker : List String → WordMap → WordMap
  | [], m => m
  | w :: ws, m =>
    if w = "" then runWorker ws m
    else if workerIsSentinel w then m
    else runWorker ws (mapIncr m w)

/-- LookupState carries the state touched by lookup_words: the word table
(s_wordsMap, read only), the hit counter (s_totalFound), and the list of
queries the loop has actually processed, in order. -/
structure LookupState where
  table : WordMap
  totalFound : Nat
  processed : List String
deriving Repr, DecidableEq

/-- lookupStep is one iteration of the lookup_words loop body on query q:
it searches the table with find; on a hit it increments s_totalFound, on a
miss it only reports.  The loop body contains no comparison of q against
the sentinel and never writes to the table. -/
def lookupStep (st : LookupState) (q : String) : LookupState :=
  match mapFind st.table q with
  | some _ =>
    { st with totalFound := st.totalFound + 1, processed := st.processed ++ [q] }
  | none => { st with processed := st.processed ++ [q] }

/-- run_lookup_words models the lookup_words loop over the remaining input
queries: scanf returning EOF (the query list exhausted) is the only exit;
every available query goes through lookupStep. -/
def run_lookup_words (st : LookupState) : List String → LookupState
  | [] => st
  | q :: qs => run_lookup_words (lookupStep st q) qs

/-- DriverResult records the observable outcome of read_input_words:
the tokens it put into the shared slot in order, whether the sentinel
"end" was ever put, and whether worker.join() was executed before
returning. -/
structure DriverResult where
  puts : List String
  sentinelSent : Bool
  joined : Bool
deriving Repr, DecidableEq

/-- driverLoop models the read_input_words loop over the remaining stdin
tokens: when scanf hits EOF the function returns at once (line 82),
skipping worker.join(); otherwise the token, the sentinel included, is
stored into the slot, and after putting the sentinel the loop ends and
worker.join() runs (line 105). -/
def driverLoop : List String → List String → DriverResult
  | [], puts => ⟨puts, false, false⟩
  | w :: ws, puts =>
    if producerIsSentinel w then ⟨puts ++ [w], true, true⟩
    else driverLoop ws (puts ++ [w])

/-- read_input_words_model is read_input_words applied to the whole stdin
token sequence, starting with nothing yet put. -/
def read_input_words_model (input : List String) : DriverResult :=
  driverLoop input []

/-- lineBufSize is the size of the fixed stack buffer `char lineBuf[32]`
used by both read_input_words and lookup_words. -/
def lineBufSize : Nat := 32

/-- scanfBytesWritten counts the bytes `scanf("%s", lineBuf)` stores for a
token: every character of the token plus the terminating NUL.  The "%s"
conversion carries no field width, so the count depends only on the token,
never on the size of the destination buffer. -/
def scanfBytesWritten (token : String) : Nat := token.length + 1

/-- scanfOverflows holds when scanf writes past the end of lineBuf: the
bytes stored exceed the 32 bytes the buffer owns. -/
def scanfOverflows (token : String) : Bool :=
  decide (lineBufSize < scanfBytesWritten token)

/-- SysState is the shared state of the two threads during ingestion:
the stdin tokens the producer has not yet read, the single slot s_word
(the empty string is the "no value present" marker, as in the code),
the tokens already put in order, the tokens already taken by the worker in
order, and the two loop-exit flags (endEncountered of each thread, set when
that thread has finished its loop). -/
structure SysState where
  input : List String
  slot : String
  produced : List String
  observed : List String
  prodDone : Bool
  workDone : Bool
deriving Repr, DecidableEq

/-- slotList views the slot contents as a list of pending tokens: empty
when the slot holds the empty marker, a singleton otherwise. -/
def slotList (s : String) : List String := if s = "" then [] else [s]

/-- Step is one mutex-protected action of either thread, interleaved in
any order.  put: the producer stores the next stdin token into s_word;
its preceding condition-variable wait (line 101, predicate
`s_word.data.empty()`) means it runs only while the slot is empty, and
after storing the sentinel the producer loop exits.  prodEof: scanf hits
EOF and the producer returns.  spin: the worker swaps an empty slot with
an empty Word and loops (worker_thread never blocks, it re-tries).  take:
the worker swaps a stored token out of the slot, leaving the slot empty;
taking the sentinel ends the worker loop. -/
inductive Step : SysState → SysState → Prop
  | put (s : SysState) (w : String) (ws : List String) :
      s.prodDone = false → s.input = w :: ws → s.slot = "" →
      Step s ⟨ws, w, s.produced ++ [w], s.observed, producerIsSentinel w, s.workDone⟩
  | prodEof (s : SysState) :
      s.prodDone = false → s.input = [] →
      Step s ⟨s.input, s.slot, s.produced, s.observed, true, s.workDone⟩
  | spin (s : SysState) :
      s.workDone = false → s.slot = "" →
      Step s s
  | take (s : SysState) (w : String) :
      s.workDone = false → s.slot = w → w ≠ "" →
      Step s ⟨s.input, "", s.produced, s.observed ++ [w], s.prodDone, workerIsSentinel w⟩

/-- Reachable is the reflexive-transitive closure of Step from a given
start state: every state some interleaving of the two threads can reach. -/
inductive Reachable (init : SysState) : SysState → Prop
  | refl : Reachable init init
  | tail {s t : SysState} : Reachable init s → Step s t → Reachable init t

/-- initState is the program state right after `std::thread worker(...)`
starts the consumer: the whole stdin token sequence is still unread, the
static s_word is default-constructed (empty), and both loops are running. -/
def initState (tokens : List String) : SysState :=
  ⟨tokens, "", [], [], false, false⟩

/-- eofIdleState is the state after read_input_words returned on immediate
EOF: nothing was ever put, the slot is empty, the producer is gone and the
worker loop is still running. -/
def eofIdleState : SysState := ⟨[], "", [], [], true, false⟩

end MainCxx

namespace MainCxx

/-- HandoffInv is the inductive invariant of the handoff: stdin tokens are
never the empty marker, and the put sequence is exactly the take sequence
followed by whatever currently sits in the slot. -/
def HandoffInv (s : SysState) : Prop :=
  (∀ w ∈ s.input, w ≠ "") ∧ s.produced = s.observed ++ slotList s.slot

theorem step_preserves_handoffInv {s t : SysState} (hst : Step s t)
    (h : HandoffInv s) : HandoffInv t := by
  obtain ⟨hne, heq⟩ := h
  cases hst with
  | put w ws hpd hin hsl =>
    have hw : w ≠ "" := hne w (by rw [hin]; exact List.mem_cons_self w ws)
    refine ⟨fun x hx => hne x (by rw [hin]; exact List.mem_cons_of_mem w hx), ?_⟩
    rw [hsl] at heq
    simp only [slotList, if_neg hw, if_pos rfl, List.append_nil] at heq ⊢
    simp [heq]
  | prodEof h1 h2 => exact ⟨hne, heq⟩
  | spin h1 h2 => exact ⟨hne, heq⟩
  | take w h1 h2 h3 =>
    refine ⟨hne, ?_⟩
    rw [h2] at heq
    simp only [slotList, if_neg h3] at heq
    simp [slotList, heq]

theorem reachable_handoffInv {init s : SysState} (h0 : HandoffInv init)
    (hs : Reachable init s) : HandoffInv s := by
  induction hs with
  | refl => exact h0
  | tail _ hstep ih => exact step_preserves_handoffInv hstep ih

/-- IdleInv characterizes the system once the producer has returned on
immediate EOF: no input is left, the slot stays empty and the worker loop
flag stays unset, whatever the worker does. -/
def IdleInv (s : SysState) : Prop :=
  s.input = [] ∧ s.slot = "" ∧ s.workDone = false

theorem step_preserves_idleInv {s t : SysState} (hst : Step s t)
    (h : IdleInv s) : IdleInv t := by
  obtain ⟨hin, hsl, hwd⟩ := h
  cases hst with
  | put w ws hpd hin2 hsl2 => rw [hin] at hin2; exact absurd hin2 (by simp)
  | prodEof h1 h2 => exact ⟨hin, hsl, hwd⟩
  | spin h1 h2 => exact ⟨hin, hsl, hwd⟩
  | take w h1 h2 h3 => exact absurd (hsl ▸ h2) (fun hx => h3 hx.symm)

theorem run_lookup_words_table (qs : List String) :
    ∀ st : LookupState, (run_lookup_words st qs).table = st.table := by
  induction qs with
  | nil => intro st; rfl
  | cons q qs ih =>
    intro st
    have hstep : (lookupStep st q).table = st.table := by
      cases hm : mapFind st.table q <;> simp [lookupStep, hm]
    calc (run_lookup_words st (q :: qs)).table
        = (run_lookup_words (lookupStep st q) qs).table := rfl
      _ = (lookupStep st q).table := ih (lookupStep st q)
      _ = st.table := hstep

theorem lookupStep_processed (st : LookupState) (q : String) :
    (lookupStep st q).processed = st.processed ++ [q] := by
  cases hm : mapFind st.table q <;> simp [lookupStep, hm]

theorem mem_mapIncr {m : WordMap} {w : String} {p : String × Nat}
    (hp : p ∈ mapIncr m w) : (p.1 = w ∧ 1 ≤ p.2) ∨ p ∈ m := by
  induction m with
  | nil =>
    simp only [mapIncr, List.mem_singleton] at hp
    exact Or.inl ⟨by rw [hp], by rw [hp]⟩
  | cons kc rest ih =>
    obtain ⟨k, c⟩ := kc
    simp only [mapIncr] at hp
    split at hp
    · rcases List.mem_cons.mp hp with h | h
      · exact Or.inl ⟨by rw [h], by rw [h]⟩
      · exact Or.inr h
    · split at hp
      · next heq =>
        rcases List.mem_cons.mp hp with h | h
        · exact Or.inl ⟨by rw [h]; exact heq.symm, by rw [h]; omega⟩
        · exact Or.inr (List.mem_cons_of_mem _ h)
      · rcases List.mem_cons.mp hp with h | h
        · exact Or.inr (by rw [h]; exact List.mem_cons_self _ _)
        · rcases ih h with h2 | h2
          · exact Or.inl h2
          · exact Or.inr (List.mem_cons_of_mem _ h2)

/-- WfTable is the table invariant implicit in worker_thread: every key of
s_wordsMap is a non-empty word different from the sentinel "end", and
every stored count is at least one (operator[] default-constructs
wordCount at zero only together with the immediate `count += 1`). -/
def WfTable (m : WordMap) : Prop :=
  ∀ p ∈ m, p.1 ≠ "" ∧ p.1 ≠ "end" ∧ 1 ≤ p.2

/-- C1: in every state any interleaving of read_input_words and
worker_thread can reach, the sequence of tokens put so far equals the
sequence of tokens the worker has taken so far followed by the (at most
one) token still sitting in the slot.  Hence the worker takes exactly the
put tokens, each exactly once and in put order: the N-th take observes the
N-th put, and once the slot is empty the worker has observed exactly every
token put.  The hypothesis records that scanf "%s" tokens are never the
empty string, the slot-free marker. -/
theorem claim1_handoff_exact_order (tokens : List String)
    (hne : ∀ w ∈ tokens, w ≠ "") (s : SysState)
    (hs : Reachable (initState tokens) s) :
    s.produced = s.observed ++ slotList s.slot := by
  have h0 : HandoffInv (initState tokens) := by
    refine ⟨hne, ?_⟩
    simp [initState, slotList]
  exact (reachable_handoffInv h0 hs).2

theorem claim1_handoff_exact_order_witness :
    (⟨["end"], "", ["a"], ["a"], false, false⟩ : SysState).produced =
      (⟨["end"], "", ["a"], ["a"], false, false⟩ : SysState).observed ++
        slotList (⟨["end"], "", ["a"], ["a"], false, false⟩ : SysState).slot := by
  have h1 : Step (initState ["a", "end"]) ⟨["end"], "a", ["a"], [], false, false⟩ :=
    Step.put (initState ["a", "end"]) "a" ["end"] rfl rfl rfl
  have h2 : Step (⟨["end"], "a", ["a"], [], false, false⟩ : SysState)
      ⟨["end"], "", ["a"], ["a"], false, false⟩ :=
    Step.take (⟨["end"], "a", ["a"], [], false, false⟩ : SysState) "a" rfl rfl
      (by decide)
  exact claim1_handoff_exact_order ["a", "end"] (by decide) _
    (Reachable.tail (Reachable.tail Reachable.refl h1) h2)

/-- C2: the claim that the producer signals shutdown on every exit path is
false of the code.  On immediate EOF, read_input_words returns at line 82
having put nothing: no sentinel is ever sent and worker.join() at line 105
is skipped, and from the resulting state every interleaving of further
worker steps leaves the worker loop running (workDone never becomes true),
so worker_thread spins forever.  This demonstrates the deadlock-on-EOF gap
the code itself leaves open. -/
theorem claim2_eof_no_shutdown :
    read_input_words_model [] = ⟨[], false, false⟩ ∧
    ∀ s : SysState, Reachable eofIdleState s → s.workDone = false := by
  refine ⟨by decide, ?_⟩
  intro s hs
  have hinv : IdleInv s := by
    induction hs with
    | refl => exact ⟨rfl, rfl, rfl⟩
    | tail _ hstep ih => exact step_preserves_idleInv hstep ih
  exact hinv.2.2

theorem claim2_eof_no_shutdown_witness :
    read_input_words_model [] = ⟨[], false, false⟩ ∧
    eofIdleState.workDone = false :=
  ⟨claim2_eof_no_shutdown.1,
   claim2_eof_no_shutdown.2 eofIdleState Reachable.refl⟩

/-- C3: ingesting the token sequence ["b", "a", "b", "end"] produces the
table holding a once and b twice, and iterating the table (the
association list itself) yields [("a", 1), ("b", 2)] in ascending
lexicographic key order. -/
theorem claim3_freq_table_example :
    runWorker ["b", "a", "b", "end"] [] = [("a", 1), ("b", 2)] ∧
    mapFind (runWorker ["b", "a", "b", "end"] []) "a" = some 1 ∧
    mapFind (runWorker ["b", "a", "b", "end"] []) "b" = some 2 := by decide

/-- C4: the sentinel "end" ends the worker loop and is never inserted:
after ingesting ["x", "x", "end"] the table is exactly {x: 2}, lookup of
x finds count 2, and lookups of "end" and of y both miss. -/
theorem claim4_sentinel_never_inserted :
    runWorker ["x", "x", "end"] [] = [("x", 2)] ∧
    mapFind (runWorker ["x", "x", "end"] []) "x" = some 2 ∧
    mapFind (runWorker ["x", "x", "end"] []) "end" = none ∧
    mapFind (runWorker ["x", "x", "end"] []) "y" = none := by decide

/-- C5, counterexample: lookup_words does not stop at the sentinel.  With
table {x: 2} and remaining stdin queries ["end", "x"], the loop processes
both queries — the query after "end" is still looked up and still counts a
hit — contradicting the claim that no further queries are processed once
the query word equals the sentinel. -/
theorem claim5_counterexample_sentinel_ignored :
    (run_lookup_words ⟨[("x", 2)], 0, []⟩ ["end", "x"]).processed = ["end", "x"] ∧
    (run_lookup_words ⟨[("x", 2)], 0, []⟩ ["end", "x"]).totalFound = 1 ∧
    (run_lookup_words ⟨[("x", 2)], 0, []⟩ ["end", "x"]).processed ≠ ["end"] := by
  decide

/-- C5, amended: the lookup_words loop consumes queries until stream
exhaustion only — scanf returning EOF is its sole exit — and every
available query, the sentinel "end" included, is processed as an ordinary
lookup. -/
theorem claim5_lookup_until_exhaustion (qs : List String) (st : LookupState) :
    (run_lookup_words st qs).processed = st.processed ++ qs := by
  induction qs generalizing st with
  | nil => simp [run_lookup_words]
  | cons q qs ih =>
    calc (run_lookup_words st (q :: qs)).processed
        = (run_lookup_words (lookupStep st q) qs).processed := rfl
      _ = (lookupStep st q).processed ++ qs := ih (lookupStep st q)
      _ = st.processed ++ q :: qs := by rw [lookupStep_processed]; simp

/-- C6: the claim that an oversized token is rejected or truncated is
false of the code.  scanf "%s" stores the whole token plus a NUL however
long it is, so a 32-character token stores 33 bytes into the 32-byte
lineBuf, past its end. -/
theorem claim6_scanf_overflow :
    lineBufSize = 32 ∧
    scanfBytesWritten (String.mk (List.replicate 32 'a')) = 33 ∧
    scanfOverflows (String.mk (List.replicate 32 'a')) = true := by decide

/-- C7: each lookup_words iteration increments s_totalFound exactly when
the query is a key of the table and leaves it unchanged on a miss, and the
query sequence ["x", "y", "x"] against the table {x: 2} ends with the
counter at 2. -/
theorem claim7_total_found_counts_hits :
    (∀ (t : WordMap) (n : Nat) (p : List String) (q : String),
        (lookupStep ⟨t, n, p⟩ q).totalFound =
          if (mapFind t q).isSome then n + 1 else n) ∧
    (run_lookup_words ⟨[("x", 2)], 0, []⟩ ["x", "y", "x"]).totalFound = 2 := by
  constructor
  · intro t n p q
    cases hm : mapFind t q <;> simp [lookupStep, hm]
  · decide

/-- C8: a lookup session never mutates the table: after any sequence of
queries from any state the table equals the starting table, so every
lookup — repeated lookups of the same word included — returns the count
the starting table gives. -/
theorem claim8_lookup_never_mutates (qs : List String) (st : LookupState) :
    (run_lookup_words st qs).table = st.table ∧
    ∀ w, mapFind (run_lookup_words st qs).table w = mapFind st.table w := by
  refine ⟨run_lookup_words_table qs st, fun w => ?_⟩
  rw [run_lookup_words_table qs st]

/-- C9: the worker table invariant: if every entry of the table has a
non-empty key different from "end" and a count of at least one, then after
one worker_thread iteration on any token the table still does — empty
tokens and the sentinel are never inserted, and an entry is only created
together with its first increment. -/
theorem claim9_table_invariant (m : WordMap) (w : String) (h : WfTable m) :
    WfTable (workerStepTable m w) := by
  unfold workerStepTable
  split
  · exact h
  · split
    · exact h
    · next hne hsent =>
      intro p hp
      rcases mem_mapIncr hp with ⟨h1, h2⟩ | hm
      · have hwend : w ≠ "end" := by
          intro hx
          exact hsent (by rw [hx]; rfl)
        exact ⟨by rw [h1]; exact hne, by rw [h1]; exact hwend, h2⟩
      · exact h p hm

theorem claim9_table_invariant_witness :
    WfTable (workerStepTable [("b", 2)] "a") :=
  claim9_table_invariant [("b", 2)] "a" (by unfold WfTable; decide)

/-- C10: sentinel recognition is an exact, case-sensitive comparison on
both sides: the worker and producer checks accept exactly the string
"end", and the variants End, END and ends are ingested as ordinary words,
each counted in the table. -/
theorem claim10_sentinel_exact_case_sensitive :
    (∀ w : String, w ≠ "end" → workerIsSentinel w = false) ∧
    workerIsSentinel "end" = true ∧
    (∀ w : String, w ≠ "end" → producerIsSentinel w = false) ∧
    producerIsSentinel "end" = true ∧
    runWorker ["End", "END", "ends", "end"] [] =
      [("END", 1), ("End", 1), ("ends", 1)] := by
  refine ⟨?_, rfl, ?_, rfl, by decide⟩
  · intro w h
    simpa [workerIsSentinel] using h
  · intro w h
    simpa [producerIsSentinel] using h

theorem claim10_sentinel_exact_case_sensitive_witness :
    workerIsSentinel "End" = false ∧ producerIsSentinel "END" = false :=
  ⟨claim10_sentinel_exact_case_sensitive.1 "End" (by decide),
   claim10_sentinel_exact_case_sensitive.2.2.1 "END" (by decide)⟩

end MainCxx
